import Mathlib

/-!
Shallow embedding of `whisperGUI.py` (repository Topping1/whispercppGUI).

The verified fragment is `Worker.run`:
* the SRT timestamp-rescaling block (source lines 241-263): find every
  substring matching the regex `\d{2}:\d{2}:\d{2},\d{3}`, convert it to a
  total millisecond count, multiply by the speed-up factor, truncate with
  Python `int()`, decompose with Python `//` and `%` (floor division), format
  with `%02d`/`%03d`/`%02d`/`%03d` zero padding, and globally replace the
  matched string by the new string with `str.replace`;
* the output-format flag selection (lines 129-137) and the whisper command
  line f-string (line 189);
* the advanced-options argument builder (lines 178-186).

Modelling conventions:
* Python strings are `List Char`; a digit of the regex class `\d` is an ASCII
  digit (the documents are SRT files produced by whisper-cli).
* The float `speed_up` is modelled as a rational number (the specification's
  data model declares the scale factor to be "a positive rational number");
  Python `int(x)` is truncation toward zero, `//` is `Int.fdiv` and `%` is
  `Int.fmod`, which match Python's floor-division semantics.
* Recursive scans over strings use structural recursion on a fuel argument
  initialised to the string length, which dominates the number of steps, so
  that all definitions evaluate by kernel reduction.
-/

namespace WhisperGUI

/-- The character of a decimal digit value: `digitChar d` is `'0' + d`. -/
def digitChar (n : ℕ) : Char := Char.ofNat (48 + n)

/-- Numeric value of an ASCII digit character, as computed by Python `int`
on a digit substring. -/
def digitVal (c : Char) : ℕ := c.toNat - 48

/-- ASCII-digit test: the regex class `\d` on SRT content. -/
def isDig (c : Char) : Bool := 48 ≤ c.toNat && c.toNat ≤ 57

/-- Decimal digits of a natural number, most significant first (no padding).
The fuel argument `n + 1` bounds the recursion depth `n → n / 10 → ...`. -/
def natDigitsAux : ℕ → ℕ → List Char
  | 0, _ => []
  | fuel + 1, n => if n < 10 then [digitChar n] else natDigitsAux fuel (n / 10) ++ [digitChar (n % 10)]

/-- Decimal digits of a natural number, most significant first. -/
def natDigits (n : ℕ) : List Char := natDigitsAux (n + 1) n

/-- Python `format(n, '0wd')` for a nonnegative number: zero-pad the decimal
digits on the left to a minimum width `w`; wider numbers are kept whole. -/
def padW (w : ℕ) (n : ℕ) : List Char := List.replicate (w - (natDigits n).length) '0' ++ natDigits n

/-- Python `f'{n:0wd}'` on an integer: for a negative number the sign is
emitted first and counts toward the minimum width. -/
def padInt (w : ℕ) (n : ℤ) : List Char := if n < 0 then '-' :: padW (w - 1) n.natAbs else padW w n.toNat

/-- Python `int()` applied to an exact rational: truncation toward zero. -/
def pythonInt (q : ℚ) : ℤ := if q < 0 then ⌈q⌉ else ⌊q⌋

/-- Does a string match the timecode regex `\d{2}:\d{2}:\d{2},\d{3}` exactly
(12 characters: two digit pairs separated by colons, then a comma and three
digits)? `re.findall` succeeds at a position of the document precisely when
the 12 characters starting there satisfy this predicate. -/
def isTC : List Char → Bool
  | [h1, h2, c1, m1, m2, c2, s1, s2, c3, x1, x2, x3] =>
    isDig h1 && isDig h2 && c1 == ':' && isDig m1 && isDig m2 && c2 == ':' &&
      isDig s1 && isDig s2 && c3 == ',' && isDig x1 && isDig x2 && isDig x3
  | _ => false

/-- One scan step per unit of fuel: `re.findall` proceeds left to right,
skipping 12 characters after a match (non-overlapping) and one character
otherwise. Fuel at least the length of the string suffices. -/
def findMatchesAux : ℕ → List Char → List (List Char)
  | 0, _ => []
  | _ + 1, [] => []
  | fuel + 1, c :: rest =>
    if isTC ((c :: rest).take 12) then
      (c :: rest).take 12 :: findMatchesAux fuel ((c :: rest).drop 12)
    else
      findMatchesAux fuel rest

/-- `re.findall(r"\d{2}:\d{2}:\d{2},\d{3}", content)` (source line 246). -/
def findMatches (l : List Char) : List (List Char) := findMatchesAux l.length l

/-- Does `pat` start the string `l`? -/
def startsWith : List Char → List Char → Bool
  | [], _ => true
  | _ :: _, [] => false
  | p :: ps, c :: cs => p == c && startsWith ps cs

/-- One replacement-scan step per unit of fuel; fuel at least the length of
the string suffices (each step consumes at least one character). -/
def replaceAllAux (pat rep : List Char) : ℕ → List Char → List Char
  | 0, l => l
  | _ + 1, [] => []
  | fuel + 1, c :: rest =>
    if !pat.isEmpty && startsWith pat (c :: rest) then
      rep ++ replaceAllAux pat rep fuel ((c :: rest).drop pat.length)
    else
      c :: replaceAllAux pat rep fuel rest

/-- Python `str.replace(pat, rep)`: replace every non-overlapping occurrence
of `pat` left to right; replacement text is not rescanned (line 261). -/
def replaceAll (pat rep l : List Char) : List Char := replaceAllAux pat rep l.length l

/-- Total milliseconds of a matched timecode string (lines 248-254).  The
source splits the match on `":"` and `","` and applies `int`; on a 12
character match of the regex this equals this positional parse.  Non-matches
(never produced by `findMatches`) parse to `0`. -/
def parseMatch : List Char → ℕ
  | [h1, h2, _, m1, m2, _, s1, s2, _, x1, x2, x3] =>
    ((10 * digitVal h1 + digitVal h2) * 3600 + (10 * digitVal m1 + digitVal m2) * 60 +
        (10 * digitVal s1 + digitVal s2)) * 1000 +
      (100 * digitVal x1 + 10 * digitVal x2 + digitVal x3)
  | _ => 0

/-- The minutes field of a matched timecode string. -/
def matchMinutes : List Char → ℕ
  | [_, _, _, m1, m2, _, _, _, _, _, _, _] => 10 * digitVal m1 + digitVal m2
  | _ => 0

/-- The seconds field of a matched timecode string. -/
def matchSeconds : List Char → ℕ
  | [_, _, _, _, _, _, s1, s2, _, _, _, _] => 10 * digitVal s1 + digitVal s2
  | _ => 0

/-- `new_total = int(total_ms * speed_up)` (line 255). -/
def newTotal (m : ℕ) (f : ℚ) : ℤ := pythonInt ((m : ℚ) * f)

/-- Lines 256-260: decompose a total with Python `//` and `%` (floor
division) and format as `{:02d}:{:02d}:{:02d},{:03d}`. -/
def renderTotal (nt : ℤ) : List Char :=
  padInt 2 (Int.fdiv nt 3600000) ++ [':'] ++
    padInt 2 (Int.fdiv (Int.fmod nt 3600000) 60000) ++ [':'] ++
    padInt 2 (Int.fdiv (Int.fmod (Int.fmod nt 3600000) 60000) 1000) ++ [','] ++
    padInt 3 (Int.fmod (Int.fmod (Int.fmod nt 3600000) 60000) 1000)

/-- The replacement string computed for a match of total-ms value `m` under
factor `f` (lines 255-260). -/
def newTime (m : ℕ) (f : ℚ) : List Char := renderTotal (newTotal m f)

/-- The timestamp-rescaling transformation of `Worker.run` (lines 246-261):
find all matches once, then for each match in order globally replace the
matched string by its rescaled rendering. -/
def rescale (doc : List Char) (f : ℚ) : List Char :=
  (findMatches doc).foldl (fun content p => replaceAll p (newTime (parseMatch p) f) content) doc

/-- A timecode value as in the specification's data model: hours unbounded,
minutes and seconds in `[0, 59]`, milliseconds in `[0, 999]` (the bounds are
stated as hypotheses where needed). -/
structure Timecode where
  hours : ℕ
  minutes : ℕ
  seconds : ℕ
  ms : ℕ

/-- Total milliseconds represented by a timecode. -/
def totalMs (t : Timecode) : ℕ := (t.hours * 3600 + t.minutes * 60 + t.seconds) * 1000 + t.ms

/-- Decomposition of a total millisecond count into fields, mirroring the
arithmetic of lines 256-259 over naturals. -/
def msToTimecode (n : ℕ) : Timecode :=
  ⟨n / 3600000, n % 3600000 / 60000, n % 3600000 % 60000 / 1000, n % 3600000 % 60000 % 1000⟩

/-- Canonical rendering `HH:MM:SS,mmm` of a timecode (zero-padded to 2/2/2/3
digits, hours growing wider when above 99). -/
def render (t : Timecode) : List Char :=
  padW 2 t.hours ++ [':'] ++ padW 2 t.minutes ++ [':'] ++ padW 2 t.seconds ++ [','] ++ padW 3 t.ms

/-- Python `pat in s` substring test. -/
def containsSub (pat : List Char) : List Char → Bool
  | [] => startsWith pat []
  | c :: rest => startsWith pat (c :: rest) || containsSub pat rest

/-! Command construction (lines 129-137 and 189) and the advanced-options
argument builder (lines 178-186). -/

/-- The basic-tab settings consumed by `Worker.run`'s command construction.
`speed_up` is `float(basic["speed_up"])`; the input-file path only enters
the command through the derived WAV name, which is passed separately. -/
structure BasicSettings where
  model : List Char
  language : List Char
  translate : Bool
  output_txt : Bool
  output_srt : Bool
  output_vtt : Bool
  speed_up : ℚ
  others : List Char

/-- Line 139. -/
def translateFlag (b : BasicSettings) : List Char :=
  if b.translate then "--translate".toList else []

/-- Lines 130-137: with a speed-up factor only SRT output is requested. -/
def outputTxtFlag (b : BasicSettings) : List Char :=
  if b.speed_up ≠ 1 then [] else if b.output_txt then "--output-txt".toList else []

/-- Lines 130-137. -/
def outputSrtFlag (b : BasicSettings) : List Char :=
  if b.speed_up ≠ 1 then "--output-srt".toList
  else if b.output_srt then "--output-srt".toList else []

/-- Lines 130-137. -/
def outputVttFlag (b : BasicSettings) : List Char :=
  if b.speed_up ≠ 1 then [] else if b.output_vtt then "--output-vtt".toList else []

/-- The whisper command f-string of line 189. -/
def whisperCmd (exec wav : List Char) (b : BasicSettings) (adv : List Char) : List Char :=
  exec ++ " -f \"".toList ++ wav ++ "\" -m \"".toList ++ b.model ++ "\" -l ".toList ++
    b.language ++ " ".toList ++ translateFlag b ++ " ".toList ++ outputTxtFlag b ++
    " ".toList ++ outputSrtFlag b ++ " ".toList ++ outputVttFlag b ++ " ".toList ++
    b.others ++ " ".toList ++ adv

/-- A value of the advanced-options dictionary: a checkbox boolean, Python
`None`, or any other value via its f-string rendering (spin-box numbers and
line-edit strings alike; Python compares `value != ""` across types, which
is false only for the empty string, and `value is not None` excludes
`None`). -/
inductive AdvValue where
  | boolVal (x : Bool)
  | noneVal
  | strVal (x : List Char)

/-- Line 180: `"--" + key.replace("_", "-")`. -/
def advFlagName (key : List Char) : List Char :=
  "--".toList ++ key.map fun c => if c = '_' then '-' else c

/-- Lines 178-186: fold over the dictionary items in order, appending
`" {flag}"` for a true boolean and `" {flag} {value}"` for a non-empty,
non-None value. -/
def advancedArgs (adv : List (List Char × AdvValue)) : List Char :=
  adv.foldl (fun acc kv =>
    match kv.2 with
    | AdvValue.boolVal x => if x then acc ++ " ".toList ++ advFlagName kv.1 else acc
    | AdvValue.noneVal => acc
    | AdvValue.strVal v =>
      if v ≠ [] then acc ++ " ".toList ++ advFlagName kv.1 ++ " ".toList ++ v else acc) []

/-- The text contributed by one key, following the claim's wording: the bare
flag exactly when a boolean is true, flag then value exactly when the value
is neither empty nor None, nothing otherwise. -/
def advPiece (kv : List Char × AdvValue) : List Char :=
  match kv.2 with
  | AdvValue.boolVal x => if x then " ".toList ++ advFlagName kv.1 else []
  | AdvValue.noneVal => []
  | AdvValue.strVal v =>
    if v ≠ [] then " ".toList ++ advFlagName kv.1 ++ " ".toList ++ v else []

/-- The claim-side description of the advanced-argument string: the
concatenation, in dictionary order, of each key's contribution and nothing
else. -/
def advancedArgsSpec (adv : List (List Char × AdvValue)) : List Char :=
  (adv.map advPiece).flatten

/-! ### Helper lemmas -/

/-! Arithmetic bridging lemmas. -/

theorem pythonInt_intCast (n : ℤ) : pythonInt ((n : ℤ) : ℚ) = n := by
  unfold pythonInt
  split <;> simp

theorem pythonInt_eq_floor {q : ℚ} (h : 0 ≤ q) : pythonInt q = ⌊q⌋ := by
  unfold pythonInt
  rw [if_neg (not_lt.mpr h)]

theorem newTotal_eq (m : ℕ) (f : ℚ) (n : ℤ) (h : (m : ℚ) * f = (n : ℚ)) :
    newTotal m f = n := by
  rw [newTotal, h, pythonInt_intCast]

theorem newTime_eq (m : ℕ) (f : ℚ) (n : ℤ) (h : (m : ℚ) * f = (n : ℚ)) :
    newTime m f = renderTotal n := by
  rw [newTime, newTotal_eq m f n h]

theorem newTotal_nonneg (m : ℕ) {f : ℚ} (hf : 0 ≤ f) : 0 ≤ newTotal m f := by
  have h : 0 ≤ (m : ℚ) * f := mul_nonneg (by positivity) hf
  rw [newTotal, pythonInt_eq_floor h]
  exact Int.floor_nonneg.mpr h

theorem newTotal_eq_floor (m : ℕ) {f : ℚ} (hf : 0 ≤ f) :
    newTotal m f = ⌊(m : ℚ) * f⌋ := by
  rw [newTotal, pythonInt_eq_floor (mul_nonneg (by positivity) hf)]

theorem fdiv_natCast (a b : ℕ) : Int.fdiv (a : ℤ) (b : ℤ) = ((a / b : ℕ) : ℤ) :=
  (Int.ofNat_fdiv a b).symm

theorem fmod_natCast (a b : ℕ) : Int.fmod (a : ℤ) (b : ℤ) = ((a % b : ℕ) : ℤ) :=
  (Int.ofNat_fmod a b).symm

theorem padInt_natCast (w : ℕ) (k : ℕ) : padInt w ((k : ℕ) : ℤ) = padW w k := by
  simp [padInt]

theorem renderTotal_natCast (n : ℕ) : renderTotal ((n : ℕ) : ℤ) = render (msToTimecode n) := by
  unfold renderTotal render msToTimecode
  rw [show (3600000 : ℤ) = ((3600000 : ℕ) : ℤ) from rfl,
    show (60000 : ℤ) = ((60000 : ℕ) : ℤ) from rfl,
    show (1000 : ℤ) = ((1000 : ℕ) : ℤ) from rfl]
  rw [fdiv_natCast, fmod_natCast, fdiv_natCast, fmod_natCast, fdiv_natCast, fmod_natCast,
    padInt_natCast, padInt_natCast, padInt_natCast, padInt_natCast]

theorem newTime_eq_render (m : ℕ) {f : ℚ} (hf : 0 ≤ f) :
    newTime m f = render (msToTimecode (newTotal m f).toNat) := by
  have h : (((newTotal m f).toNat : ℕ) : ℤ) = newTotal m f :=
    Int.toNat_of_nonneg (newTotal_nonneg m hf)
  calc newTime m f = renderTotal (((newTotal m f).toNat : ℕ) : ℤ) := by rw [newTime, h]
    _ = render (msToTimecode (newTotal m f).toNat) := renderTotal_natCast _

theorem totalMs_msToTimecode (n : ℕ) : totalMs (msToTimecode n) = n := by
  simp only [totalMs, msToTimecode]
  omega

/-! Digit lemmas. -/

theorem digitVal_digitChar {d : ℕ} (h : d ≤ 9) : digitVal (digitChar d) = d := by
  interval_cases d <;> decide

theorem isDig_digitChar {d : ℕ} (h : d ≤ 9) : isDig (digitChar d) = true := by
  interval_cases d <;> decide

theorem isDig_bounds {c : Char} (h : isDig c = true) : 48 ≤ c.toNat ∧ c.toNat ≤ 57 := by
  simp only [isDig, Bool.and_eq_true, decide_eq_true_eq] at h
  exact h

theorem digitChar_digitVal {c : Char} (h : isDig c = true) : digitChar (digitVal c) = c := by
  obtain ⟨h1, h2⟩ := isDig_bounds h
  unfold digitChar digitVal
  rw [show 48 + (c.toNat - 48) = c.toNat from by omega]
  exact Char.ofNat_toNat c

theorem digitVal_le_nine {c : Char} (h : isDig c = true) : digitVal c ≤ 9 := by
  obtain ⟨h1, h2⟩ := isDig_bounds h
  unfold digitVal
  omega

/-! Padding lemmas: explicit digit lists for 2- and 3-digit fields. -/

theorem natDigitsAux_small {fuel n : ℕ} (hf : 1 ≤ fuel) (h : n < 10) :
    natDigitsAux fuel n = [digitChar n] := by
  obtain ⟨f, rfl⟩ : ∃ f, fuel = f + 1 := ⟨fuel - 1, by omega⟩
  unfold natDigitsAux
  rw [if_pos h]

theorem natDigitsAux_two {fuel n : ℕ} (hf : 2 ≤ fuel) (h1 : 10 ≤ n) (h2 : n ≤ 99) :
    natDigitsAux fuel n = [digitChar (n / 10), digitChar (n % 10)] := by
  obtain ⟨f, rfl⟩ : ∃ f, fuel = f + 1 := ⟨fuel - 1, by omega⟩
  unfold natDigitsAux
  rw [if_neg (by omega), natDigitsAux_small (by omega) (by omega)]
  rfl

theorem natDigitsAux_three {fuel n : ℕ} (hf : 3 ≤ fuel) (h1 : 100 ≤ n) (h2 : n ≤ 999) :
    natDigitsAux fuel n = [digitChar (n / 100), digitChar (n / 10 % 10), digitChar (n % 10)] := by
  obtain ⟨f, rfl⟩ : ∃ f, fuel = f + 1 := ⟨fuel - 1, by omega⟩
  unfold natDigitsAux
  rw [if_neg (by omega), natDigitsAux_two (by omega) (by omega) (by omega),
    show n / 10 / 10 = n / 100 from by omega]
  rfl

theorem natDigits_small {n : ℕ} (h : n < 10) : natDigits n = [digitChar n] :=
  natDigitsAux_small (by omega) h

theorem natDigits_two {n : ℕ} (h1 : 10 ≤ n) (h2 : n ≤ 99) :
    natDigits n = [digitChar (n / 10), digitChar (n % 10)] :=
  natDigitsAux_two (by omega) h1 h2

theorem natDigits_three {n : ℕ} (h1 : 100 ≤ n) (h2 : n ≤ 999) :
    natDigits n = [digitChar (n / 100), digitChar (n / 10 % 10), digitChar (n % 10)] :=
  natDigitsAux_three (by omega) h1 h2

theorem padW_two {n : ℕ} (h : n ≤ 99) :
    padW 2 n = [digitChar (n / 10), digitChar (n % 10)] := by
  by_cases h10 : n < 10
  · rw [padW, natDigits_small h10, show n / 10 = 0 from by omega, show n % 10 = n from by omega]
    rfl
  · rw [padW, natDigits_two (by omega) h]
    rfl

theorem padW_three {n : ℕ} (h : n ≤ 999) :
    padW 3 n = [digitChar (n / 100), digitChar (n / 10 % 10), digitChar (n % 10)] := by
  by_cases h10 : n < 10
  · rw [padW, natDigits_small h10, show n / 100 = 0 from by omega,
      show n / 10 % 10 = 0 from by omega, show n % 10 = n from by omega]
    rfl
  · by_cases h100 : n < 100
    · rw [padW, natDigits_two (by omega) (by omega), show n / 100 = 0 from by omega,
        show n / 10 % 10 = n / 10 from by omega]
      rfl
    · rw [padW, natDigits_three (by omega) h]
      rfl

/-! Rendering a valid timecode and parsing it back. -/

theorem render_eq_list {t : Timecode} (hh : t.hours ≤ 99) (hm : t.minutes ≤ 99)
    (hs : t.seconds ≤ 99) (hx : t.ms ≤ 999) :
    render t = [digitChar (t.hours / 10), digitChar (t.hours % 10), ':',
      digitChar (t.minutes / 10), digitChar (t.minutes % 10), ':',
      digitChar (t.seconds / 10), digitChar (t.seconds % 10), ',',
      digitChar (t.ms / 100), digitChar (t.ms / 10 % 10), digitChar (t.ms % 10)] := by
  rw [render, padW_two hh, padW_two hm, padW_two hs, padW_three hx]
  rfl

theorem isTC_render {t : Timecode} (hh : t.hours ≤ 99) (hm : t.minutes ≤ 99)
    (hs : t.seconds ≤ 99) (hx : t.ms ≤ 999) : isTC (render t) = true := by
  rw [render_eq_list hh hm hs hx]
  have a1 := isDig_digitChar (show t.hours / 10 ≤ 9 from by omega)
  have a2 := isDig_digitChar (show t.hours % 10 ≤ 9 from by omega)
  have a3 := isDig_digitChar (show t.minutes / 10 ≤ 9 from by omega)
  have a4 := isDig_digitChar (show t.minutes % 10 ≤ 9 from by omega)
  have a5 := isDig_digitChar (show t.seconds / 10 ≤ 9 from by omega)
  have a6 := isDig_digitChar (show t.seconds % 10 ≤ 9 from by omega)
  have a7 := isDig_digitChar (show t.ms / 100 ≤ 9 from by omega)
  have a8 := isDig_digitChar (show t.ms / 10 % 10 ≤ 9 from by omega)
  have a9 := isDig_digitChar (show t.ms % 10 ≤ 9 from by omega)
  simp [isTC, a1, a2, a3, a4, a5, a6, a7, a8, a9]

theorem render_length {t : Timecode} (hh : t.hours ≤ 99) (hm : t.minutes ≤ 99)
    (hs : t.seconds ≤ 99) (hx : t.ms ≤ 999) : (render t).length = 12 := by
  rw [render_eq_list hh hm hs hx]
  rfl

theorem parseMatch_render {t : Timecode} (hh : t.hours ≤ 99) (hm : t.minutes ≤ 59)
    (hs : t.seconds ≤ 59) (hx : t.ms ≤ 999) : parseMatch (render t) = totalMs t := by
  rw [render_eq_list hh (by omega) (by omega) hx]
  simp only [parseMatch]
  rw [digitVal_digitChar (show t.hours / 10 ≤ 9 from by omega),
    digitVal_digitChar (show t.hours % 10 ≤ 9 from by omega),
    digitVal_digitChar (show t.minutes / 10 ≤ 9 from by omega),
    digitVal_digitChar (show t.minutes % 10 ≤ 9 from by omega),
    digitVal_digitChar (show t.seconds / 10 ≤ 9 from by omega),
    digitVal_digitChar (show t.seconds % 10 ≤ 9 from by omega),
    digitVal_digitChar (show t.ms / 100 ≤ 9 from by omega),
    digitVal_digitChar (show t.ms / 10 % 10 ≤ 9 from by omega),
    digitVal_digitChar (show t.ms % 10 ≤ 9 from by omega)]
  rw [totalMs]
  omega

/-- Any string accepted by the timecode pattern has exactly the 12-character
shape, with digits at the digit positions. -/
theorem isTC_elim {p : List Char} (h : isTC p = true) {C : Prop}
    (k : ∀ d1 d2 d3 d4 d5 d6 d7 d8 d9 : Char,
      isDig d1 = true → isDig d2 = true → isDig d3 = true → isDig d4 = true →
      isDig d5 = true → isDig d6 = true → isDig d7 = true → isDig d8 = true →
      isDig d9 = true →
      p = [d1, d2, ':', d3, d4, ':', d5, d6, ',', d7, d8, d9] → C) : C := by
  obtain _ | ⟨c1, p⟩ := p; · exact absurd h (by decide)
  obtain _ | ⟨c2, p⟩ := p; · exact absurd h (by simp [isTC])
  obtain _ | ⟨c3, p⟩ := p; · exact absurd h (by simp [isTC])
  obtain _ | ⟨c4, p⟩ := p; · exact absurd h (by simp [isTC])
  obtain _ | ⟨c5, p⟩ := p; · exact absurd h (by simp [isTC])
  obtain _ | ⟨c6, p⟩ := p; · exact absurd h (by simp [isTC])
  obtain _ | ⟨c7, p⟩ := p; · exact absurd h (by simp [isTC])
  obtain _ | ⟨c8, p⟩ := p; · exact absurd h (by simp [isTC])
  obtain _ | ⟨c9, p⟩ := p; · exact absurd h (by simp [isTC])
  obtain _ | ⟨c10, p⟩ := p; · exact absurd h (by simp [isTC])
  obtain _ | ⟨c11, p⟩ := p; · exact absurd h (by simp [isTC])
  obtain _ | ⟨c12, p⟩ := p; · exact absurd h (by simp [isTC])
  obtain _ | ⟨c13, p⟩ := p
  · simp only [isTC, Bool.and_eq_true, beq_iff_eq] at h
    obtain ⟨⟨⟨⟨⟨⟨⟨⟨⟨⟨⟨hd1, hd2⟩, he1⟩, hd3⟩, hd4⟩, he2⟩, hd5⟩, hd6⟩, he3⟩, hd7⟩, hd8⟩, hd9⟩ := h
    subst he1 he2 he3
    exact k c1 c2 c4 c5 c7 c8 c10 c11 c12 hd1 hd2 hd3 hd4 hd5 hd6 hd7 hd8 hd9 rfl
  · exact absurd h (by simp [isTC])

/-! Scanning and replacement lemmas. -/

theorem findMatches_single {l : List Char} (h12 : l.length = 12) (htc : isTC l = true) :
    findMatches l = [l] := by
  rw [findMatches, h12]
  obtain _ | ⟨c, rest⟩ := l
  · simp at h12
  · show findMatchesAux (11 + 1) (c :: rest) = [c :: rest]
    unfold findMatchesAux
    rw [show (c :: rest).take 12 = c :: rest from List.take_of_length_le (by omega),
      show (c :: rest).drop 12 = [] from List.drop_eq_nil_of_le (by omega), if_pos htc]
    rfl

theorem findMatchesAux_eq_nil {fuel : ℕ} {l : List Char}
    (h : ∀ i, i < l.length → isTC ((l.drop i).take 12) = false) :
    findMatchesAux fuel l = [] := by
  induction fuel generalizing l with
  | zero => rfl
  | succ fuel ih =>
    obtain _ | ⟨c, rest⟩ := l
    · rfl
    · unfold findMatchesAux
      rw [if_neg (by simpa using h 0 (by simp))]
      exact ih fun i hi => by simpa using h (i + 1) (by simpa using hi)

theorem findMatchesAux_mem_isTC {fuel : ℕ} {l p : List Char}
    (hp : p ∈ findMatchesAux fuel l) : isTC p = true := by
  induction fuel generalizing l with
  | zero => simp [findMatchesAux] at hp
  | succ fuel ih =>
    obtain _ | ⟨c, rest⟩ := l
    · simp [findMatchesAux] at hp
    · unfold findMatchesAux at hp
      by_cases htc : isTC ((c :: rest).take 12) = true
      · rw [if_pos htc] at hp
        obtain rfl | hp := List.mem_cons.mp hp
        · exact htc
        · exact ih hp
      · rw [if_neg htc] at hp
        exact ih hp

theorem findMatches_mem_isTC {l p : List Char} (hp : p ∈ findMatches l) : isTC p = true :=
  findMatchesAux_mem_isTC hp

theorem startsWith_of_append (p t : List Char) : startsWith p (p ++ t) = true := by
  induction p with
  | nil => rfl
  | cons c cs ih => simp [startsWith, ih]

theorem eq_append_drop_of_startsWith {p l : List Char} (h : startsWith p l = true) :
    l = p ++ l.drop p.length := by
  induction p generalizing l with
  | nil => simp
  | cons c cs ih =>
    obtain _ | ⟨d, rest⟩ := l
    · simp [startsWith] at h
    · simp only [startsWith, Bool.and_eq_true, beq_iff_eq] at h
      obtain ⟨rfl, h⟩ := h
      simpa using ih h

theorem replaceAllAux_nil (pat rep : List Char) (fuel : ℕ) :
    replaceAllAux pat rep fuel [] = [] := by
  cases fuel <;> rfl

theorem replaceAll_self (pat l : List Char) : replaceAll pat pat l = l := by
  suffices h : ∀ fuel l, replaceAllAux pat pat fuel l = l from h l.length l
  intro fuel
  induction fuel with
  | zero => intro l; rfl
  | succ fuel ih =>
    intro l
    obtain _ | ⟨c, rest⟩ := l
    · rfl
    · show replaceAllAux pat pat (fuel + 1) (c :: rest) = c :: rest
      unfold replaceAllAux
      by_cases hs : (!pat.isEmpty && startsWith pat (c :: rest)) = true
      · rw [if_pos hs]
        simp only [Bool.and_eq_true] at hs
        conv_rhs => rw [eq_append_drop_of_startsWith hs.2]
        rw [ih]
      · rw [if_neg hs, ih]

theorem replaceAll_of_self_pat {pat : List Char} (rep : List Char) (h : pat ≠ []) :
    replaceAll pat rep pat = rep := by
  rw [replaceAll]
  obtain _ | ⟨c, rest⟩ := pat
  · exact absurd rfl h
  · show replaceAllAux (c :: rest) rep (rest.length + 1) (c :: rest) = rep
    unfold replaceAllAux
    rw [if_pos (by simpa [List.isEmpty] using
        (by simpa using startsWith_of_append (c :: rest) [] : startsWith (c :: rest) (c :: rest) = true))]
    rw [show (c :: rest).drop (c :: rest).length = [] from List.drop_length _,
      replaceAllAux_nil, List.append_nil]

/-! Factor-one roundtrip: a match whose minutes and seconds fields are in
range renders back to itself. -/

theorem render_parse_roundtrip {p : List Char} (htc : isTC p = true)
    (hm : matchMinutes p ≤ 59) (hs : matchSeconds p ≤ 59) :
    render (msToTimecode (parseMatch p)) = p := by
  refine isTC_elim htc ?_
  intro d1 d2 d3 d4 d5 d6 d7 d8 d9 g1 g2 g3 g4 g5 g6 g7 g8 g9 hp
  subst hp
  simp only [matchMinutes] at hm
  simp only [matchSeconds] at hs
  simp only [parseMatch]
  have b1 := digitVal_le_nine g1
  have b2 := digitVal_le_nine g2
  have b3 := digitVal_le_nine g3
  have b4 := digitVal_le_nine g4
  have b5 := digitVal_le_nine g5
  have b6 := digitVal_le_nine g6
  have b7 := digitVal_le_nine g7
  have b8 := digitVal_le_nine g8
  have b9 := digitVal_le_nine g9
  set H := 10 * digitVal d1 + digitVal d2 with hH
  set M := 10 * digitVal d3 + digitVal d4 with hM
  set S := 10 * digitVal d5 + digitVal d6 with hS
  set X := 100 * digitVal d7 + 10 * digitVal d8 + digitVal d9 with hX
  have hT : msToTimecode ((H * 3600 + M * 60 + S) * 1000 + X) = ⟨H, M, S, X⟩ := by
    simp only [msToTimecode]
    have e1 : ((H * 3600 + M * 60 + S) * 1000 + X) / 3600000 = H := by omega
    have e2 : ((H * 3600 + M * 60 + S) * 1000 + X) % 3600000 / 60000 = M := by omega
    have e3 : ((H * 3600 + M * 60 + S) * 1000 + X) % 3600000 % 60000 / 1000 = S := by omega
    have e4 : ((H * 3600 + M * 60 + S) * 1000 + X) % 3600000 % 60000 % 1000 = X := by omega
    rw [e1, e2, e3, e4]
  rw [hT, render_eq_list (t := ⟨H, M, S, X⟩) (by simp; omega) (by simp; omega)
    (by simp; omega) (by simp; omega)]
  simp only
  have f1 : H / 10 = digitVal d1 := by omega
  have f2 : H % 10 = digitVal d2 := by omega
  have f3 : M / 10 = digitVal d3 := by omega
  have f4 : M % 10 = digitVal d4 := by omega
  have f5 : S / 10 = digitVal d5 := by omega
  have f6 : S % 10 = digitVal d6 := by omega
  have f7 : X / 100 = digitVal d7 := by omega
  have f8 : X / 10 % 10 = digitVal d8 := by omega
  have f9 : X % 10 = digitVal d9 := by omega
  rw [f1, f2, f3, f4, f5, f6, f7, f8, f9,
    digitChar_digitVal g1, digitChar_digitVal g2, digitChar_digitVal g3,
    digitChar_digitVal g4, digitChar_digitVal g5, digitChar_digitVal g6,
    digitChar_digitVal g7, digitChar_digitVal g8, digitChar_digitVal g9]

theorem containsSub_startsWith {pat l : List Char} (h : startsWith pat l = true) :
    containsSub pat l = true := by
  cases l with
  | nil => exact h
  | cons c rest => simp [containsSub, h]

theorem containsSub_append {pat l : List Char} (a : List Char)
    (h : containsSub pat l = true) : containsSub pat (a ++ l) = true := by
  induction a with
  | nil => exact h
  | cons c cs ih =>
    show containsSub pat (c :: (cs ++ l)) = true
    simp [containsSub, ih]

theorem foldl_advPiece : ∀ (l : List (List Char × AdvValue)) (acc : List Char),
    (l.foldl (fun acc kv =>
      match kv.2 with
      | AdvValue.boolVal x => if x then acc ++ " ".toList ++ advFlagName kv.1 else acc
      | AdvValue.noneVal => acc
      | AdvValue.strVal v =>
        if v ≠ [] then acc ++ " ".toList ++ advFlagName kv.1 ++ " ".toList ++ v else acc) acc)
      = acc ++ (l.map advPiece).flatten
  | [], acc => by simp
  | kv :: l, acc => by
    rw [List.foldl_cons, foldl_advPiece l, List.map_cons, List.flatten_cons]
    obtain ⟨k, v⟩ := kv
    cases v with
    | boolVal x => cases x <;> simp [advPiece, List.append_assoc]
    | noneVal => simp [advPiece]
    | strVal s =>
      by_cases hs : s = [] <;> simp [advPiece, hs, List.append_assoc]

/-! ### Claim theorems -/

theorem foldl_replace_id (f : ℚ) : ∀ (ms : List (List Char)) (doc : List Char),
    (∀ p ∈ ms, newTime (parseMatch p) f = p) →
    ms.foldl (fun content p => replaceAll p (newTime (parseMatch p) f) content) doc = doc
  | [], _, _ => rfl
  | p :: ps, doc, h => by
    show List.foldl _ (replaceAll p (newTime (parseMatch p) f) doc) ps = doc
    rw [h p (List.mem_cons_self p ps), replaceAll_self]
    exact foldl_replace_id f ps doc fun q hq => h q (List.mem_cons_of_mem p hq)

/-- C1: for a valid timecode `T` with total-millisecond value `m` and any
positive factor `f`, rescaling the document consisting of exactly `T` yields
the rendering of the timecode decomposed from `floor(m * f)`, and that
timecode's total-millisecond value is exactly `floor(m * f)` (truncation,
not rounding). -/
theorem rescale_single_timecode_floor (t : Timecode) (hh : t.hours ≤ 99)
    (hm : t.minutes ≤ 59) (hs : t.seconds ≤ 59) (hx : t.ms ≤ 999)
    (f : ℚ) (hf : 0 < f) :
    rescale (render t) f = render (msToTimecode (⌊(totalMs t : ℚ) * f⌋).toNat) ∧
    (totalMs (msToTimecode (⌊(totalMs t : ℚ) * f⌋).toNat) : ℤ) = ⌊(totalMs t : ℚ) * f⌋ := by
  have hfl : newTotal (totalMs t) f = ⌊(totalMs t : ℚ) * f⌋ := newTotal_eq_floor _ hf.le
  have hne : render t ≠ [] := by
    intro h0
    have h12 := render_length hh (by omega) (by omega) hx
    rw [h0] at h12
    simp at h12
  constructor
  · unfold rescale
    rw [findMatches_single (render_length hh (by omega) (by omega) hx)
      (isTC_render hh (by omega) (by omega) hx)]
    simp only [List.foldl]
    rw [parseMatch_render hh hm hs hx, replaceAll_of_self_pat _ hne,
      newTime_eq_render _ hf.le, hfl]
  · rw [totalMs_msToTimecode, Int.toNat_of_nonneg (hfl ▸ newTotal_nonneg (totalMs t) hf.le)]

theorem rescale_single_timecode_floor_witness :
    rescale (render ⟨0, 0, 1, 0⟩) 2 =
      render (msToTimecode (⌊((totalMs ⟨0, 0, 1, 0⟩ : ℕ) : ℚ) * 2⌋).toNat) ∧
    (totalMs (msToTimecode (⌊((totalMs ⟨0, 0, 1, 0⟩ : ℕ) : ℚ) * 2⌋).toNat) : ℤ) =
      ⌊((totalMs ⟨0, 0, 1, 0⟩ : ℕ) : ℚ) * 2⌋ :=
  rescale_single_timecode_floor ⟨0, 0, 1, 0⟩ (by decide) (by decide) (by decide) (by decide)
    2 (by norm_num)

/-- C5 (amended): rescaling with factor exactly 1 returns the document
unchanged provided every matched timecode has in-range minutes and seconds
fields; a match with an out-of-range field (e.g. minutes 99) is renormalised
even at factor 1, so the unrestricted claim fails. -/
theorem rescale_one_identity (doc : List Char)
    (h : ∀ p ∈ findMatches doc, matchMinutes p ≤ 59 ∧ matchSeconds p ≤ 59) :
    rescale doc 1 = doc := by
  unfold rescale
  refine foldl_replace_id 1 (findMatches doc) doc ?_
  intro p hp
  have htc := findMatches_mem_isTC hp
  obtain ⟨hm, hs⟩ := h p hp
  have e1 : newTime (parseMatch p) 1 = renderTotal ((parseMatch p : ℕ) : ℤ) :=
    newTime_eq _ _ _ (by push_cast; ring)
  rw [e1, renderTotal_natCast]
  exact render_parse_roundtrip htc hm hs

theorem rescale_one_identity_witness :
    rescale ("1\n00:00:01,000 --> 00:00:02,500\nHello\n".toList) 1 =
      "1\n00:00:01,000 --> 00:00:02,500\nHello\n".toList :=
  rescale_one_identity _ (by decide)

/-- C7: a document with no substring matching the timecode pattern is
returned unchanged (no error is possible: the transformation is total). -/
theorem rescale_no_timecode_id (doc : List Char) (f : ℚ) (hf : 0 < f)
    (h : ∀ i, i < doc.length → isTC ((doc.drop i).take 12) = false) :
    rescale doc f = doc := by
  unfold rescale findMatches
  rw [findMatchesAux_eq_nil h]
  rfl

theorem rescale_no_timecode_id_witness :
    rescale ("Hello whisper\n".toList) 2 = "Hello whisper\n".toList :=
  rescale_no_timecode_id _ 2 (by norm_num) (by decide)

/-- C6: for every positive factor the computed total is nonnegative and its
decomposition has minutes and seconds in `[0, 59]` and milliseconds in
`[0, 999]`; the written string is the rendering of that decomposition, whose
hours field absorbs overflow, as in the concrete example
`99:59:59,999` at factor 2 giving the three-digit-hours `199:59:59,998`. -/
theorem rescale_field_ranges (m : ℕ) (f : ℚ) (hf : 0 < f) :
    0 ≤ newTotal m f ∧
    newTime m f = render (msToTimecode (newTotal m f).toNat) ∧
    (msToTimecode (newTotal m f).toNat).minutes ≤ 59 ∧
    (msToTimecode (newTotal m f).toNat).seconds ≤ 59 ∧
    (msToTimecode (newTotal m f).toNat).ms ≤ 999 ∧
    rescale ("99:59:59,999".toList) 2 = "199:59:59,998".toList := by
  refine ⟨newTotal_nonneg m hf.le, newTime_eq_render m hf.le, ?_, ?_, ?_, ?_⟩
  · simp only [msToTimecode]
    omega
  · simp only [msToTimecode]
    omega
  · simp only [msToTimecode]
    omega
  · have e : newTime 359999999 2 = renderTotal 719999998 := newTime_eq _ _ _ (by norm_num)
    unfold rescale
    rw [show findMatches ("99:59:59,999".toList) = ["99:59:59,999".toList] from by decide]
    simp only [List.foldl]
    rw [show parseMatch ("99:59:59,999".toList) = 359999999 from by decide, e]
    decide

theorem rescale_field_ranges_witness :
    0 ≤ newTotal 123456 2 ∧
    newTime 123456 2 = render (msToTimecode (newTotal 123456 2).toNat) ∧
    (msToTimecode (newTotal 123456 2).toNat).minutes ≤ 59 ∧
    (msToTimecode (newTotal 123456 2).toNat).seconds ≤ 59 ∧
    (msToTimecode (newTotal 123456 2).toNat).ms ≤ 999 ∧
    rescale ("99:59:59,999".toList) 2 = "199:59:59,998".toList :=
  rescale_field_ranges 123456 2 (by norm_num)

/-- C8: the end-to-end example: factor 2 on a one-caption SRT document
doubles both timecodes and leaves all other bytes unchanged. -/
theorem rescale_end_to_end :
    rescale ("1\n00:00:00,000 --> 00:00:02,000\nHello\n".toList) 2 =
      "1\n00:00:00,000 --> 00:00:04,000\nHello\n".toList := by
  have e0 : newTime 0 2 = renderTotal 0 := newTime_eq _ _ _ (by norm_num)
  have e2 : newTime 2000 2 = renderTotal 4000 := newTime_eq _ _ _ (by norm_num)
  unfold rescale
  rw [show findMatches ("1\n00:00:00,000 --> 00:00:02,000\nHello\n".toList) =
    ["00:00:00,000".toList, "00:00:02,000".toList] from by decide]
  simp only [List.foldl]
  rw [show parseMatch ("00:00:00,000".toList) = 0 from by decide,
    show parseMatch ("00:00:02,000".toList) = 2000 from by decide, e0, e2]
  decide

/-- C2 (counterexample): in a document whose two distinct timecodes are
`00:00:01,000` and `00:00:02,000`, factor 2 does not rescale the first value
to `00:00:02,000` as independence would demand: the global string
replacement of the first match collides with the second original value and
is rescaled again, yielding `00:00:04,000` in both positions. -/
theorem rescale_distinct_chaining_cex :
    rescale ("00:00:01,000 --> 00:00:02,000".toList) 2 =
      "00:00:04,000 --> 00:00:04,000".toList ∧
    ("00:00:04,000 --> 00:00:04,000".toList : List Char) ≠
      "00:00:02,000 --> 00:00:04,000".toList := by
  constructor
  · have e1 : newTime 1000 2 = renderTotal 2000 := newTime_eq _ _ _ (by norm_num)
    have e2 : newTime 2000 2 = renderTotal 4000 := newTime_eq _ _ _ (by norm_num)
    unfold rescale
    rw [show findMatches ("00:00:01,000 --> 00:00:02,000".toList) =
      ["00:00:01,000".toList, "00:00:02,000".toList] from by decide]
    simp only [List.foldl]
    rw [show parseMatch ("00:00:01,000".toList) = 1000 from by decide,
      show parseMatch ("00:00:02,000".toList) = 2000 from by decide, e1, e2]
    decide
  · decide

/-- C2 (amended): the specification's example pair is rescaled independently
and correctly, because there no rescaled value collides with a later
original value. -/
theorem rescale_spec_example_distinct :
    rescale ("00:00:01,000 --> 00:01:00,500".toList) 2 =
      "00:00:02,000 --> 00:02:01,000".toList := by
  have e1 : newTime 1000 2 = renderTotal 2000 := newTime_eq _ _ _ (by norm_num)
  have e2 : newTime 60500 2 = renderTotal 121000 := newTime_eq _ _ _ (by norm_num)
  unfold rescale
  rw [show findMatches ("00:00:01,000 --> 00:01:00,500".toList) =
    ["00:00:01,000".toList, "00:01:00,500".toList] from by decide]
  simp only [List.foldl]
  rw [show parseMatch ("00:00:01,000".toList) = 1000 from by decide,
    show parseMatch ("00:01:00,500".toList) = 60500 from by decide, e1, e2]
  decide

/-- C3 (counterexample): factor 0 does not fail — there is no factor
validation and no InvalidFactor error anywhere in the code — it produces a
modified document. -/
theorem rescale_factor_zero_produces_output :
    rescale ("00:00:01,000".toList) 0 ≠ "00:00:01,000".toList := by
  have e : newTime 1000 0 = renderTotal 0 := newTime_eq _ _ _ (by norm_num)
  unfold rescale
  rw [show findMatches ("00:00:01,000".toList) = ["00:00:01,000".toList] from by decide]
  simp only [List.foldl]
  rw [show parseMatch ("00:00:01,000".toList) = 1000 from by decide, e]
  decide

/-- C3 (amended): the transformation performs no factor validation: with
factor 0 every timecode is rewritten to `00:00:00,000`, and with factor -1
timecodes become malformed negative renderings such as `-1:59:59,000`
(Python floor division on a negative total). Non-positive factors are kept
out only upstream, by the GUI spin-box range 0.1 to 10.0. -/
theorem rescale_nonpositive_factor_behavior :
    rescale ("00:00:01,000".toList) 0 = "00:00:00,000".toList ∧
    rescale ("00:00:01,000".toList) (-1) = "-1:59:59,000".toList := by
  constructor
  · have e : newTime 1000 0 = renderTotal 0 := newTime_eq _ _ _ (by norm_num)
    unfold rescale
    rw [show findMatches ("00:00:01,000".toList) = ["00:00:01,000".toList] from by decide]
    simp only [List.foldl]
    rw [show parseMatch ("00:00:01,000".toList) = 1000 from by decide, e]
    decide
  · have e : newTime 1000 (-1) = renderTotal (-1000) := newTime_eq _ _ _ (by norm_num)
    unfold rescale
    rw [show findMatches ("00:00:01,000".toList) = ["00:00:01,000".toList] from by decide]
    simp only [List.foldl]
    rw [show parseMatch ("00:00:01,000".toList) = 1000 from by decide, e]
    decide

/-- C4 (counterexample): a document containing `00:00:10,000` twice and also
`00:00:15,000`, at factor 3/2: the duplicate's occurrences are first
rewritten to `00:00:15,000`, but the later match for the original
`00:00:15,000` then rewrites all three occurrences to `00:00:22,500`, so the
duplicate's positions do not hold the rescaled value `00:00:15,000`
(indeed that string occurs nowhere in the output). -/
theorem rescale_duplicate_collision_cex :
    rescale ("00:00:10,000 00:00:10,000 00:00:15,000".toList) (3 / 2) =
      "00:00:22,500 00:00:22,500 00:00:22,500".toList ∧
    containsSub ("00:00:15,000".toList)
      ("00:00:22,500 00:00:22,500 00:00:22,500".toList) = false := by
  constructor
  · have e1 : newTime 10000 (3 / 2) = renderTotal 15000 := newTime_eq _ _ _ (by norm_num)
    have e2 : newTime 15000 (3 / 2) = renderTotal 22500 := newTime_eq _ _ _ (by norm_num)
    unfold rescale
    rw [show findMatches ("00:00:10,000 00:00:10,000 00:00:15,000".toList) =
      ["00:00:10,000".toList, "00:00:10,000".toList, "00:00:15,000".toList] from by decide]
    simp only [List.foldl]
    rw [show parseMatch ("00:00:10,000".toList) = 10000 from by decide,
      show parseMatch ("00:00:15,000".toList) = 15000 from by decide, e1, e2]
    decide
  · decide

/-- C4 (amended): in a document where the duplicated value's rescaled string
does not collide with another original timecode, both occurrences are
replaced by the same single rescaled value, by one global replacement. -/
theorem rescale_duplicate_value_example :
    rescale ("00:00:10,000 --> 00:00:10,000".toList) (3 / 2) =
      "00:00:15,000 --> 00:00:15,000".toList := by
  have e1 : newTime 10000 (3 / 2) = renderTotal 15000 := newTime_eq _ _ _ (by norm_num)
  unfold rescale
  rw [show findMatches ("00:00:10,000 --> 00:00:10,000".toList) =
    ["00:00:10,000".toList, "00:00:10,000".toList] from by decide]
  simp only [List.foldl]
  rw [show parseMatch ("00:00:10,000".toList) = 10000 from by decide, e1]
  decide

/-- C5 (counterexample): factor 1 is not the identity on every document: a
regex match with minutes field 99 is renormalised, `00:99:00,000` becoming
`01:39:00,000`. -/
theorem rescale_one_not_identity_cex :
    rescale ("00:99:00,000".toList) 1 = "01:39:00,000".toList ∧
    ("01:39:00,000".toList : List Char) ≠ "00:99:00,000".toList := by
  constructor
  · have e : newTime 5940000 1 = renderTotal 5940000 := newTime_eq _ _ _ (by norm_num)
    unfold rescale
    rw [show findMatches ("00:99:00,000".toList) = ["00:99:00,000".toList] from by decide]
    simp only [List.foldl]
    rw [show parseMatch ("00:99:00,000".toList) = 5940000 from by decide, e]
    decide
  · decide

/-- C10: the advanced-argument string is exactly the concatenation, in
dictionary order, of each key's contribution: the hyphenated flag alone for
a true boolean, flag then value for a non-empty non-None value, and nothing
for false booleans, empty strings, or None; no other text is emitted. -/
theorem advancedArgs_spec (adv : List (List Char × AdvValue)) :
    advancedArgs adv = advancedArgsSpec adv := by
  rw [advancedArgs, advancedArgsSpec, foldl_advPiece adv]
  rfl

/-- C9 (counterexample): the full command line can contain `--output-txt`
even with a speed-up factor, because the free-text `others` field is pasted
verbatim: the claim's "contains neither" fails for this settings object. -/
theorem whisperCmd_others_cex :
    (⟨"model.bin".toList, "en".toList, false, false, false, false, 2,
        "--output-txt".toList⟩ : BasicSettings).speed_up ≠ 1 ∧
    containsSub ("--output-txt".toList)
      (whisperCmd ("./whisper-cli".toList) ("a.wav".toList)
        ⟨"model.bin".toList, "en".toList, false, false, false, false, 2,
          "--output-txt".toList⟩ []) = true := by
  constructor
  · decide
  · decide

/-- C9 (amended): at the level of the three flag variables the claim holds:
a speed-up factor different from 1 forces empty TXT and VTT flags and the
SRT flag (so the command contains `--output-srt`), and at factor 1 each flag
variable is its flag string exactly when the corresponding checkbox is set;
the full command can additionally contain flag text coming verbatim from
free-text fields such as `others`. -/
theorem output_flags_speedup (b : BasicSettings) :
    (b.speed_up ≠ 1 →
      outputTxtFlag b = [] ∧ outputVttFlag b = [] ∧
      outputSrtFlag b = "--output-srt".toList ∧
      ∀ exec wav adv, containsSub ("--output-srt".toList) (whisperCmd exec wav b adv) = true) ∧
    (b.speed_up = 1 →
      (outputTxtFlag b = "--output-txt".toList ↔ b.output_txt = true) ∧
      (outputSrtFlag b = "--output-srt".toList ↔ b.output_srt = true) ∧
      (outputVttFlag b = "--output-vtt".toList ↔ b.output_vtt = true)) := by
  constructor
  · intro hne
    have htxt : outputTxtFlag b = [] := by rw [outputTxtFlag, if_pos hne]
    have hvtt : outputVttFlag b = [] := by rw [outputVttFlag, if_pos hne]
    have hsrt : outputSrtFlag b = "--output-srt".toList := by rw [outputSrtFlag, if_pos hne]
    refine ⟨htxt, hvtt, hsrt, ?_⟩
    intro exec wav adv
    rw [whisperCmd, hsrt]
    simp only [List.append_assoc]
    repeat
      first
      | exact containsSub_startsWith (startsWith_of_append _ _)
      | apply containsSub_append
  · intro h1
    have hne : ¬ b.speed_up ≠ 1 := by simpa using h1
    refine ⟨?_, ?_, ?_⟩
    · rw [outputTxtFlag, if_neg hne]
      cases hb : b.output_txt <;> simp [hb]
    · rw [outputSrtFlag, if_neg hne]
      cases hb : b.output_srt <;> simp [hb]
    · rw [outputVttFlag, if_neg hne]
      cases hb : b.output_vtt <;> simp [hb]

theorem output_flags_speedup_witness :
    outputTxtFlag ⟨[], [], false, true, false, true, 2, []⟩ = [] ∧
    (outputSrtFlag ⟨[], [], false, false, true, false, 1, []⟩ = "--output-srt".toList ↔
      (⟨[], [], false, false, true, false, 1, []⟩ : BasicSettings).output_srt = true) :=
  ⟨((output_flags_speedup _).1 (by decide)).1,
    ((output_flags_speedup _).2 rfl).2.1⟩

end WhisperGUI
